import Mathlib

/-!
Shallow embedding of the circle-packing core in `src/utils/geometry.ts`:
polygon primitives (ray-casting membership, distance to boundary, shoelace
area, bounding box) and the hexagonal-lattice packing optimizer
`optimizeCircles`, together with theorems about them.

JavaScript numbers are modelled as real numbers.  The sentinel value
`Infinity` used by the source in `distanceToPolygonEdge` and
`getBoundingBox` only matters for empty polygons; the embeddings below
agree with the source on every non-empty polygon (a fold seeded with
`Infinity` over a non-empty list equals the fold seeded with the first
element over the rest).  The JavaScript remainder operator `%` truncates
towards zero and is modelled by `Int.tmod`.
-/

open Classical

namespace Pelmeni

noncomputable section

structure Point where
  x : ℝ
  y : ℝ

structure Circle where
  x : ℝ
  y : ℝ
  r : ℝ
  id : String

/-- The scanline-straddle part of the ray-casting toggle condition: the JS
boolean `(yi > point.y) !== (yj > point.y)` is the negated iff below. -/
def straddle (p : Point) (e : Point × Point) : Prop :=
  ¬((p.y < e.1.y) ↔ (p.y < e.2.y))

/-- The toggle condition of one `isPointInPolygon` loop iteration: the edge
straddles the horizontal scanline of `point` and its x-intersection with
that scanline lies strictly to the right of `point` (source line 10-11). -/
def edgeGuard (p : Point) (e : Point × Point) : Prop :=
  (¬((p.y < e.1.y) ↔ (p.y < e.2.y))) ∧
  p.x < (e.2.x - e.1.x) * (p.y - e.1.y) / (e.2.y - e.1.y) + e.1.x

/-- Loop body of `isPointInPolygon`: one edge `(polygon[i], polygon[j])`
with `j` the previous index, toggling the parity flag when the guard
condition holds. -/
def insideStep (point : Point) (inside : Bool) (e : Point × Point) : Bool :=
  if edgeGuard point e then !inside else inside

/-- The edge list traversed by `isPointInPolygon`: pairs
`(polygon[i], polygon[i-1 mod n])` for `i = 0 .. n-1`
(the source initialises `j = polygon.length - 1` and then sets `j = i++`). -/
def prevEdges (polygon : List Point) : List (Point × Point) :=
  polygon.zip (polygon.rotate (polygon.length - 1))

/-- Ray-casting point-in-polygon test of `src/utils/geometry.ts` lines 4-15. -/
def isPointInPolygon (point : Point) (polygon : List Point) : Bool :=
  (prevEdges polygon).foldl (insideStep point) false

def dist2 (v w : Point) : ℝ :=
  (v.x - w.x) ^ 2 + (v.y - w.y) ^ 2

/-- Distance from a point to a line segment, `src/utils/geometry.ts` lines 30-37. -/
def distanceToSegment (p v w : Point) : ℝ :=
  let l2 := dist2 v w
  if l2 = 0 then Real.sqrt (dist2 p v)
  else
    let t := ((p.x - v.x) * (w.x - v.x) + (p.y - v.y) * (w.y - v.y)) / l2
    let t' := max 0 (min 1 t)
    Real.sqrt (dist2 p ⟨v.x + t' * (w.x - v.x), v.y + t' * (w.y - v.y)⟩)

/-- Minimum distance from a point to the polygon boundary,
`src/utils/geometry.ts` lines 18-28: minimum over the edges
`(polygon[i], polygon[(i+1) mod n])`.  The source seeds the running
minimum with `Infinity`; for a non-empty polygon that equals folding
`min` from the first edge distance, which is how it is written here
(an empty polygon, where the source returns `Infinity`, is mapped to 0;
no caller passes one). -/
def distanceToPolygonEdge (point : Point) (polygon : List Point) : ℝ :=
  match (polygon.zip (polygon.rotate 1)).map (fun e => distanceToSegment point e.1 e.2) with
  | [] => 0
  | dmin :: rest => rest.foldl min dmin

/-- Shoelace area, `src/utils/geometry.ts` lines 43-51: the cyclic sum of
`x_i * y_{i+1} - x_{i+1} * y_i`, with the successor pairs given by
`polygon.zip (polygon.rotate 1)`, then absolute value and halving. -/
def calculatePolygonArea (polygon : List Point) : ℝ :=
  |(List.zipWith (fun a b => a.x * b.y - b.x * a.y) polygon (polygon.rotate 1)).sum| / 2

structure Bounds where
  minX : ℝ
  minY : ℝ
  maxX : ℝ
  maxY : ℝ

/-- Bounding box, `src/utils/geometry.ts` lines 143-152.  The source seeds
the four folds with `±Infinity`; for a non-empty polygon that equals
folding from the first vertex, as written here.  (For an empty polygon the
source returns infinite bounds; the optimizer only calls this with the
polygon it searches, and every claim below supplies a non-empty one.) -/
def getBoundingBox (polygon : List Point) : Bounds :=
  match polygon with
  | [] => ⟨0, 0, 0, 0⟩
  | p :: ps =>
    ⟨ps.foldl (fun m q => min m q.x) p.x,
     ps.foldl (fun m q => min m q.y) p.y,
     ps.foldl (fun m q => max m q.x) p.x,
     ps.foldl (fun m q => max m q.y) p.y⟩

end

/-- Integer range `-steps .. steps` (empty when `steps < 0`), the row and
column index space of the lattice loops `for (let row = -steps; row <= steps; row++)`. -/
def intRange (steps : ℤ) : List ℤ :=
  (List.range (2 * steps + 1).toNat).map (fun k : ℕ => -steps + (k : ℤ))

/-- Row-major enumeration of the `(row, col)` loop nest of the optimizer. -/
def idxPairs (steps : ℤ) : List (ℤ × ℤ) :=
  (intRange steps).bind (fun row => (intRange steps).map (fun col => (row, col)))

/-- The identifier string of an accepted circle: the template literal
of the source at line 125. -/
def circleId (angle : ℕ) (row col : ℤ) : String :=
  toString angle ++ "-" ++ toString row ++ "-" ++ toString col

noncomputable section

/-- Un-rotated staggered hex-grid position, `src/utils/geometry.ts` lines
105-106.  JavaScript `row % 2` truncates towards zero (`-1 % 2 === -1`),
modelled by `Int.tmod`. -/
def hexPos (d rowHeight offX offY : ℝ) (row col : ℤ) : ℝ × ℝ :=
  ((col : ℝ) * d + ((Int.tmod row 2 : ℤ) : ℝ) * (d / 2) + offX,
   (row : ℝ) * rowHeight + offY)

/-- The accept/reject test on one rotated lattice point,
`src/utils/geometry.ts` lines 114-128: coarse bounding-box filter, then the
strict containment and clearance checks; an accepted point becomes a circle
with the run's radius and the `angle-row-col` identifier. -/
def acceptPoint (polygon : List Point) (radius : ℝ) (angle : ℕ) (rc : ℤ × ℤ)
    (p : Point) : Option Circle :=
  let bounds := getBoundingBox polygon
  if p.x < bounds.minX - radius ∨ p.x > bounds.maxX + radius ∨
     p.y < bounds.minY - radius ∨ p.y > bounds.maxY + radius then none
  else if isPointInPolygon p polygon then
    if distanceToPolygonEdge p polygon ≥ radius then
      some ⟨p.x, p.y, radius, circleId angle rc.1 rc.2⟩
    else none
  else none

/-- Body of the optimizer's inner `(row, col)` loop for one
`(angle, offX, offY)` configuration, `src/utils/geometry.ts` lines 99-129:
generate the staggered lattice point, rotate it about the bounding-box
center (`cos`/`sin` of the angle converted to radians, lines 75-77), and
run the accept/reject test on the result. -/
def candidateAt (polygon : List Point) (radius d rowHeight : ℝ)
    (centerX centerY : ℝ) (angle : ℕ) (offX offY : ℝ) (rc : ℤ × ℤ) : Option Circle :=
  let rad := (angle : ℝ) * (Real.pi / 180)
  let c := Real.cos rad
  let s := Real.sin rad
  let hexX := (hexPos d rowHeight offX offY rc.1 rc.2).1
  let hexY := (hexPos d rowHeight offX offY rc.1 rc.2).2
  acceptPoint polygon radius angle rc
    ⟨hexX * c - hexY * s + centerX, hexX * s + hexY * c + centerY⟩

/-- The candidate list accumulated by the optimizer's `(row, col)` loop nest
for one `(angle, offX, offY)` configuration (`candidates.push` on accepted
points, in row-major loop order). -/
def candidatesFor (polygon : List Point) (radius d rowHeight : ℝ) (steps : ℤ)
    (centerX centerY : ℝ) (angle : ℕ) (offX offY : ℝ) : List Circle :=
  (idxPairs steps).filterMap
    (candidateAt polygon radius d rowHeight centerX centerY angle offX offY)

/-- The loop bound of the lattice scan, `src/utils/geometry.ts` lines 87-93:
`steps = ceil(diagonal / d) + 2` for the bounding-box diagonal. -/
def stepsOf (polygon : List Point) (radius spacing : ℝ) : ℤ :=
  let bounds := getBoundingBox polygon
  let d := radius * 2 + spacing
  let width := bounds.maxX - bounds.minX
  let height := bounds.maxY - bounds.minY
  ⌈Real.sqrt (width * width + height * height) / d⌉ + 2

/-- Best-configuration selection step, `src/utils/geometry.ts` lines
132-135: replace the `(maxCount, bestResult)` state when the configuration
produced strictly more candidates. -/
def bestStep {α : Type} (f : α → List Circle) (best : ℕ × List Circle) (a : α) :
    ℕ × List Circle :=
  if (f a).length > best.1 then ((f a).length, f a) else best

/-- The `(maxCount, bestResult)` state after the whole configuration sweep,
starting from `(0, [])`. -/
def bestOf {α : Type} (f : α → List Circle) (l : List α) : ℕ × List Circle :=
  l.foldl (bestStep f) (0, [])

/-- Hexagonal packing optimizer, `src/utils/geometry.ts` lines 55-141.
The search state is the pair `(maxCount, bestResult)` of the source's two
mutable variables, folded over the configurations in source order:
angles `0, 15, 30, 45, 60` outermost, then `offX` over `0, d/2`, then
`offY` over `0, rowHeight/2`.  (The source also declares an `offsets`
array and a `bestCircles` array that it never uses; they are omitted.) -/
def optimizeCircles (polygon : List Point) (radius : ℝ) (spacing : ℝ) : List Circle :=
  let bounds := getBoundingBox polygon
  let d := radius * 2 + spacing
  let rowHeight := d * Real.sqrt 3 / 2
  let centerX := (bounds.minX + bounds.maxX) / 2
  let centerY := (bounds.minY + bounds.maxY) / 2
  let steps := stepsOf polygon radius spacing
  let configs : List (ℕ × ℝ × ℝ) :=
    [0, 15, 30, 45, 60].bind (fun angle =>
      [0, d / 2].bind (fun offX =>
        [0, rowHeight / 2].map (fun offY => (angle, offX, offY))))
  (bestOf
    (fun cfg => candidatesFor polygon radius d rowHeight steps
      centerX centerY cfg.1 cfg.2.1 cfg.2.2)
    configs).2

end

/-! ## The shoelace sum and its symmetries -/

noncomputable section

/-- One term of the shoelace accumulation, `src/utils/geometry.ts` lines 47-48. -/
def crossTerm (a b : Point) : ℝ := a.x * b.y - b.x * a.y

/-- The signed shoelace sum over the successor edge pairs; `calculatePolygonArea`
is its absolute value halved. -/
def crossSum (l : List Point) : ℝ :=
  (List.zipWith crossTerm l (l.rotate 1)).sum

end

lemma calculatePolygonArea_eq_crossSum (l : List Point) :
    calculatePolygonArea l = |crossSum l| / 2 := rfl

lemma zipWith_rotate_eq {α β : Type} (f : α → α → β) (a b : List α)
    (h : a.length = b.length) (k : ℕ) :
    List.zipWith f (a.rotate k) (b.rotate k) = (List.zipWith f a b).rotate k := by
  rw [List.rotate_eq_drop_append_take_mod, List.rotate_eq_drop_append_take_mod,
    List.rotate_eq_drop_append_take_mod, List.length_zipWith, ← h, min_self,
    List.zipWith_append _ _ _ _ _ (by simp [List.length_drop, h]),
    ← List.drop_zipWith, ← List.take_zipWith]

lemma sum_rotate_eq (l : List ℝ) (k : ℕ) : (l.rotate k).sum = l.sum := by
  rw [List.rotate_eq_drop_append_take_mod, List.sum_append, add_comm,
    ← List.sum_append, List.take_append_drop]

lemma zipWith_reverse_eq {α β : Type} (f : α → α → β) :
    ∀ (a b : List α), a.length = b.length →
      List.zipWith f a.reverse b.reverse = (List.zipWith f a b).reverse
  | [], [], _ => rfl
  | [], _ :: _, h => by simp at h
  | _ :: _, [], h => by simp at h
  | x :: xs, y :: ys, h => by
    have hlen : xs.length = ys.length := by simpa using h
    simp only [List.reverse_cons, List.zipWith_cons_cons, List.reverse_cons]
    rw [List.zipWith_append _ _ _ _ _ (by simp [hlen]), zipWith_reverse_eq f xs ys hlen]
    rfl

lemma sum_zipWith_neg (g : Point → Point → ℝ) :
    ∀ (a b : List Point),
      (List.zipWith (fun x y => -(g x y)) a b).sum = -(List.zipWith g a b).sum
  | [], _ => by simp
  | _ :: _, [] => by simp
  | x :: xs, y :: ys => by
    simp only [List.zipWith_cons_cons, List.sum_cons, sum_zipWith_neg g xs ys]
    ring

lemma crossSum_rotate (l : List Point) (k : ℕ) : crossSum (l.rotate k) = crossSum l := by
  unfold crossSum
  rw [List.rotate_rotate, add_comm, ← List.rotate_rotate,
    zipWith_rotate_eq _ _ _ (by simp), sum_rotate_eq]

lemma crossSum_reverse (l : List Point) : crossSum l.reverse = -crossSum l := by
  match l with
  | [] => simp [crossSum]
  | [p] =>
    simp only [List.reverse_singleton]
    have : crossSum [p] = 0 := by
      simp [crossSum, List.rotate_singleton, crossTerm]
    rw [this]; simp
  | p :: q :: l' =>
    set m := (p :: q :: l').length with hm
    have hm2 : 2 ≤ m := by simp [hm]
    have h1 : (1 : ℕ) % m = 1 := Nat.mod_eq_of_lt (by omega)
    have hrot : (p :: q :: l').reverse.rotate 1 =
        ((p :: q :: l').rotate (m - 1)).reverse := by
      rw [List.rotate_reverse, ← hm, h1]
    have hback : ((p :: q :: l').rotate (m - 1)).rotate 1 = p :: q :: l' := by
      rw [List.rotate_rotate]
      have : m - 1 + 1 = m := by omega
      rw [this, hm, List.rotate_length]
    have hfun : (fun b a => crossTerm a b) = (fun b a => -(crossTerm b a)) := by
      funext a b; simp [crossTerm]
    calc crossSum (p :: q :: l').reverse
        = (List.zipWith crossTerm (p :: q :: l').reverse
            (((p :: q :: l').rotate (m - 1)).reverse)).sum := by
          rw [crossSum, hrot]
      _ = ((List.zipWith crossTerm (p :: q :: l')
            ((p :: q :: l').rotate (m - 1))).reverse).sum := by
          rw [zipWith_reverse_eq _ _ _ (by simp)]
      _ = (List.zipWith crossTerm (p :: q :: l')
            ((p :: q :: l').rotate (m - 1))).sum := List.sum_reverse _
      _ = (List.zipWith (fun b a => crossTerm a b)
            ((p :: q :: l').rotate (m - 1)) (p :: q :: l')).sum := by
          rw [List.zipWith_comm]
      _ = -(List.zipWith crossTerm ((p :: q :: l').rotate (m - 1))
            (p :: q :: l')).sum := by
          rw [hfun, sum_zipWith_neg]
      _ = -crossSum ((p :: q :: l').rotate (m - 1)) := by
          rw [crossSum, hback]
      _ = -crossSum (p :: q :: l') := by rw [crossSum_rotate]

/-- C7: for every polygon, `calculatePolygonArea` is non-negative and is
invariant under any cyclic rotation of the vertex list and under reversal
of the vertex order. -/
theorem calculatePolygonArea_invariances (l : List Point) (k : ℕ) :
    0 ≤ calculatePolygonArea l ∧
    calculatePolygonArea (l.rotate k) = calculatePolygonArea l ∧
    calculatePolygonArea l.reverse = calculatePolygonArea l := by
  refine ⟨?_, ?_, ?_⟩
  · rw [calculatePolygonArea_eq_crossSum]
    positivity
  · rw [calculatePolygonArea_eq_crossSum, calculatePolygonArea_eq_crossSum,
      crossSum_rotate]
  · rw [calculatePolygonArea_eq_crossSum, calculatePolygonArea_eq_crossSum,
      crossSum_reverse, abs_neg]

/-- C10: for every polygon with fewer than 3 vertices,
`calculatePolygonArea` returns exactly 0. -/
theorem calculatePolygonArea_of_degenerate (l : List Point) (h : l.length < 3) :
    calculatePolygonArea l = 0 := by
  match l with
  | [] => simp [calculatePolygonArea]
  | [p] =>
    simp [calculatePolygonArea, List.rotate_singleton]
  | [p, q] =>
    have hrot : ([p, q] : List Point).rotate 1 = [q, p] := by
      rw [List.rotate_eq_drop_append_take (by simp)]
      rfl
    simp [calculatePolygonArea, hrot]
  | _ :: _ :: _ :: _ =>
    simp at h
    omega

/-- Witness for C10 at the concrete two-vertex polygon [(0,0), (1,2)]. -/
theorem calculatePolygonArea_of_degenerate_witness :
    ([⟨0, 0⟩, ⟨1, 2⟩] : List Point).length < 3 ∧
    calculatePolygonArea [⟨0, 0⟩, ⟨1, 2⟩] = 0 :=
  ⟨by norm_num, calculatePolygonArea_of_degenerate [⟨0, 0⟩, ⟨1, 2⟩] (by norm_num)⟩

/-! ## The staggered lattice formula (claim C8) -/

lemma tmod_two_cases (r : ℤ) :
    (Even r ∧ r.tmod 2 = 0) ∨ (¬Even r ∧ 0 ≤ r ∧ r.tmod 2 = 1) ∨
    (¬Even r ∧ r < 0 ∧ r.tmod 2 = -1) := by
  match r with
  | Int.ofNat n =>
    have htm : (Int.ofNat n).tmod 2 = Int.ofNat (n % 2) := rfl
    rcases Nat.even_or_odd n with he | ho
    · left
      refine ⟨by simpa using he, ?_⟩
      rw [htm, Nat.even_iff.mp he]; rfl
    · right; left
      refine ⟨?_, Int.ofNat_nonneg n, ?_⟩
      · show ¬Even ((n : ℤ))
        rw [Int.even_coe_nat, Nat.even_iff, Nat.odd_iff.mp ho]
        norm_num
      · rw [htm, Nat.odd_iff.mp ho]; rfl
  | Int.negSucc n =>
    have htm : (Int.negSucc n).tmod 2 = -Int.ofNat ((n + 1) % 2) := rfl
    have hneg : Int.negSucc n = -(n + 1 : ℕ) := by
      simp [Int.negSucc_eq]
    rcases Nat.even_or_odd (n + 1) with he | ho
    · left
      constructor
      · rw [hneg, even_neg, Int.even_coe_nat]
        exact he
      · rw [htm, Nat.even_iff.mp he]; rfl
    · right; right
      refine ⟨?_, by omega, ?_⟩
      · rw [hneg, even_neg, Int.even_coe_nat, Nat.even_iff, Nat.odd_iff.mp ho]
        norm_num
      · rw [htm, Nat.odd_iff.mp ho]; rfl

/-- C8 (amended): the un-rotated lattice position generated by the optimizer
satisfies hexY = row * rowHeight + offY always, and
hexX = col * d + shift + offX where the stagger shift is 0 for even rows,
+d/2 for non-negative odd rows, and -d/2 for negative odd rows
(the JavaScript remainder `row % 2` is -1 on negative odd rows, not +1). -/
theorem hexPos_stagger (d rowHeight offX offY : ℝ) (row col : ℤ) :
    (hexPos d rowHeight offX offY row col).2 = (row : ℝ) * rowHeight + offY ∧
    (Even row → (hexPos d rowHeight offX offY row col).1 = (col : ℝ) * d + offX) ∧
    (¬Even row → 0 ≤ row →
      (hexPos d rowHeight offX offY row col).1 = (col : ℝ) * d + d / 2 + offX) ∧
    (¬Even row → row < 0 →
      (hexPos d rowHeight offX offY row col).1 = (col : ℝ) * d - d / 2 + offX) := by
  refine ⟨rfl, ?_, ?_, ?_⟩
  · intro he
    rcases tmod_two_cases row with ⟨_, h0⟩ | ⟨hne, _, _⟩ | ⟨hne, _, _⟩
    · simp [hexPos, h0]
    · exact absurd he hne
    · exact absurd he hne
  · intro hne hnn
    rcases tmod_two_cases row with ⟨he, _⟩ | ⟨_, _, h1⟩ | ⟨_, hlt, _⟩
    · exact absurd he hne
    · simp [hexPos, h1]
    · omega
  · intro hne hlt
    rcases tmod_two_cases row with ⟨he, _⟩ | ⟨_, hnn, _⟩ | ⟨_, _, hm1⟩
    · exact absurd he hne
    · omega
    · simp [hexPos, hm1]; ring

/-- Witness for C8's amended statement: at pitch d = 2, row -1, col 0,
offsets 0, the generated x-coordinate is col*d - d/2 + offX. -/
theorem hexPos_stagger_witness :
    ¬Even (-1 : ℤ) ∧ ((-1 : ℤ) < 0) ∧
    (hexPos 2 1 0 0 (-1) 0).1 = ((0 : ℤ) : ℝ) * 2 - 2 / 2 + 0 :=
  ⟨by decide, by decide, (hexPos_stagger 2 1 0 0 (-1) 0).2.2.2 (by decide) (by decide)⟩

/-- Counterexample to C8 as stated: at pitch d = 2 with zero offsets, the
code places row -1, col 0 at x = -1 (shift -d/2), while the claimed formula
col*d + (row mod 2)*(d/2) + offX with the mathematical (non-negative)
residue -1 mod 2 = 1 — "every odd row, including negative odd rows,
shifted by +d/2" — gives x = +1. -/
theorem hexPos_stagger_counterexample :
    (hexPos 2 1 0 0 (-1) 0).1 = -1 ∧
    ((0 : ℤ) : ℝ) * 2 + (((-1 : ℤ) % 2 : ℤ) : ℝ) * (2 / 2) + 0 = 1 ∧
    (-1 : ℝ) ≠ 1 := by
  refine ⟨?_, ?_, by norm_num⟩
  · have h : Int.tmod (-1) 2 = -1 := by decide
    simp [hexPos, h]
  · have h : ((-1 : ℤ) % 2 : ℤ) = 1 := by decide
    rw [h]; norm_num

/-- C6: `optimizeCircles` is deterministic — two invocations with identical
(polygon, radius, spacing) inputs return identical circle lists (the search
is a pure function with no randomness). -/
theorem optimizeCircles_deterministic (polygon : List Point) (radius spacing : ℝ) :
    optimizeCircles polygon radius spacing = optimizeCircles polygon radius spacing := rfl

/-! ## Invariants of the best-configuration fold -/

lemma foldl_bestStep_invariant {α : Type} (f : α → List Circle) (P : List Circle → Prop) :
    ∀ (l : List α) (st : ℕ × List Circle), P st.2 → (∀ a ∈ l, P (f a)) →
      P ((l.foldl (bestStep f) st).2)
  | [], _, hst, _ => hst
  | a :: l, st, hst, h => by
    rw [List.foldl_cons]
    refine foldl_bestStep_invariant f P l _ ?_ (fun b hb => h b (List.mem_cons_of_mem a hb))
    unfold bestStep
    split
    · exact h a (List.mem_cons_self a l)
    · exact hst

lemma bestOf_invariant {α : Type} (f : α → List Circle) (P : List Circle → Prop)
    (l : List α) (h0 : P []) (h : ∀ a ∈ l, P (f a)) : P (bestOf f l).2 :=
  foldl_bestStep_invariant f P l (0, []) h0 h

/-- `optimizeCircles` with its local definitions unfolded. -/
lemma optimizeCircles_eq (polygon : List Point) (radius spacing : ℝ) :
    optimizeCircles polygon radius spacing =
      (bestOf (fun cfg : ℕ × ℝ × ℝ =>
        candidatesFor polygon radius (radius * 2 + spacing)
          ((radius * 2 + spacing) * Real.sqrt 3 / 2)
          (stepsOf polygon radius spacing)
          (((getBoundingBox polygon).minX + (getBoundingBox polygon).maxX) / 2)
          (((getBoundingBox polygon).minY + (getBoundingBox polygon).maxY) / 2)
          cfg.1 cfg.2.1 cfg.2.2)
        ([0, 15, 30, 45, 60].bind (fun angle =>
          [0, (radius * 2 + spacing) / 2].bind (fun offX =>
            [0, (radius * 2 + spacing) * Real.sqrt 3 / 2 / 2].map
              (fun offY => (angle, offX, offY)))))).2 := rfl

/-- Inversion of an accepted candidate: its center is the rotated lattice
point, its radius is the run's radius, and it passed both strict checks. -/
lemma candidateAt_eq_some {polygon : List Point} {radius d rowHeight cX cY : ℝ}
    {angle : ℕ} {offX offY : ℝ} {rc : ℤ × ℤ} {c : Circle}
    (h : candidateAt polygon radius d rowHeight cX cY angle offX offY rc = some c) :
    c.x = (hexPos d rowHeight offX offY rc.1 rc.2).1 *
            Real.cos ((angle : ℝ) * (Real.pi / 180)) -
          (hexPos d rowHeight offX offY rc.1 rc.2).2 *
            Real.sin ((angle : ℝ) * (Real.pi / 180)) + cX ∧
    c.y = (hexPos d rowHeight offX offY rc.1 rc.2).1 *
            Real.sin ((angle : ℝ) * (Real.pi / 180)) +
          (hexPos d rowHeight offX offY rc.1 rc.2).2 *
            Real.cos ((angle : ℝ) * (Real.pi / 180)) + cY ∧
    c.r = radius ∧
    isPointInPolygon ⟨c.x, c.y⟩ polygon = true ∧
    radius ≤ distanceToPolygonEdge ⟨c.x, c.y⟩ polygon := by
  simp only [candidateAt, acceptPoint] at h
  split_ifs at h with h1 h2 h3
  · obtain rfl : _ = c := Option.some.inj h
    exact ⟨rfl, rfl, rfl, h2, h3⟩

lemma candidatesFor_mem {polygon : List Point} {radius d rowHeight cX cY : ℝ}
    {steps : ℤ} {angle : ℕ} {offX offY : ℝ} {c : Circle}
    (hc : c ∈ candidatesFor polygon radius d rowHeight steps cX cY angle offX offY) :
    ∃ rc ∈ idxPairs steps,
      candidateAt polygon radius d rowHeight cX cY angle offX offY rc = some c := by
  simpa [candidatesFor] using List.mem_filterMap.mp hc

/-- C1: every circle returned by `optimizeCircles` keeps clearance at least
`radius` from the polygon boundary and has its center inside the polygon. -/
theorem optimizeCircles_clearance (polygon : List Point) (radius spacing : ℝ)
    (hlen : 3 ≤ polygon.length) (hr : 0 < radius) (hs : 0 < spacing) :
    ∀ c ∈ optimizeCircles polygon radius spacing,
      radius ≤ distanceToPolygonEdge ⟨c.x, c.y⟩ polygon ∧
      isPointInPolygon ⟨c.x, c.y⟩ polygon = true := by
  rw [optimizeCircles_eq]
  refine bestOf_invariant _
    (fun L => ∀ c ∈ L, radius ≤ distanceToPolygonEdge ⟨c.x, c.y⟩ polygon ∧
      isPointInPolygon ⟨c.x, c.y⟩ polygon = true) _ (by simp) ?_
  intro cfg _ c hc
  obtain ⟨rc, -, hsome⟩ := candidatesFor_mem hc
  obtain ⟨-, -, -, hin, hdist⟩ := candidateAt_eq_some hsome
  exact ⟨hdist, hin⟩

/-- Witness for C1 on the triangle (0,0), (4,0), (0,4) with radius 1 and
spacing 1. -/
theorem optimizeCircles_clearance_witness :
    3 ≤ ([⟨0, 0⟩, ⟨4, 0⟩, ⟨0, 4⟩] : List Point).length ∧ (0 : ℝ) < 1 ∧
    ∀ c ∈ optimizeCircles [⟨0, 0⟩, ⟨4, 0⟩, ⟨0, 4⟩] 1 1,
      1 ≤ distanceToPolygonEdge ⟨c.x, c.y⟩ [⟨0, 0⟩, ⟨4, 0⟩, ⟨0, 4⟩] ∧
      isPointInPolygon ⟨c.x, c.y⟩ [⟨0, 0⟩, ⟨4, 0⟩, ⟨0, 4⟩] = true :=
  ⟨by norm_num, by norm_num,
    optimizeCircles_clearance [⟨0, 0⟩, ⟨4, 0⟩, ⟨0, 4⟩] 1 1
      (by norm_num) (by norm_num) (by norm_num)⟩

/-! ## Termination bound and empty results (claims C3 and C4) -/

lemma intRange_length (steps : ℤ) : (intRange steps).length = (2 * steps + 1).toNat := by
  rw [intRange, List.length_map, List.length_range]

lemma idxPairs_length (steps : ℤ) :
    (idxPairs steps).length = (2 * steps + 1).toNat ^ 2 := by
  simp only [idxPairs, List.length_bind]
  have : (List.map (List.length ∘ fun row => List.map (fun col => (row, col)) (intRange steps))
      (intRange steps)) = List.replicate (intRange steps).length (intRange steps).length := by
    rw [List.eq_replicate_iff]
    constructor
    · simp
    · intro n hn
      obtain ⟨row, _, rfl⟩ := List.mem_map.mp hn
      simp
  rw [this, List.sum_replicate, smul_eq_mul, intRange_length, sq]

/-- No lattice point is ever accepted when every in-polygon point clears
the boundary by less than `radius`. -/
lemma candidateAt_eq_none {polygon : List Point} {radius d rowHeight cX cY : ℝ}
    {angle : ℕ} {offX offY : ℝ} (rc : ℤ × ℤ)
    (h : ∀ p : Point, isPointInPolygon p polygon = true →
      distanceToPolygonEdge p polygon < radius) :
    candidateAt polygon radius d rowHeight cX cY angle offX offY rc = none := by
  simp only [candidateAt, acceptPoint]
  split_ifs with h1 h2 h3
  · rfl
  · exact absurd (h _ h2) (not_lt.mpr h3)
  · rfl
  · rfl

lemma candidatesFor_eq_nil {polygon : List Point} {radius d rowHeight cX cY : ℝ}
    {steps : ℤ} {angle : ℕ} {offX offY : ℝ}
    (h : ∀ p : Point, isPointInPolygon p polygon = true →
      distanceToPolygonEdge p polygon < radius) :
    candidatesFor polygon radius d rowHeight steps cX cY angle offX offY = [] := by
  simp only [candidatesFor]
  rw [List.filterMap_eq_nil]
  exact fun rc _ => candidateAt_eq_none rc h

/-- C3: the optimizer is total on every well-formed input — its result comes
from a bounded iteration space, its length is at most the (2*steps+1)^2
lattice cells of one configuration, and an infeasible polygon (every
interior point clears the boundary by less than the radius, so no circle
fits) yields the empty list rather than any failure. -/
theorem optimizeCircles_total (polygon : List Point) (radius spacing : ℝ)
    (hlen : 3 ≤ polygon.length) (hr : 0 < radius) (hs : 0 < spacing) :
    (optimizeCircles polygon radius spacing).length ≤
      (2 * stepsOf polygon radius spacing + 1).toNat ^ 2 ∧
    ((∀ p : Point, isPointInPolygon p polygon = true →
        distanceToPolygonEdge p polygon < radius) →
      optimizeCircles polygon radius spacing = []) := by
  constructor
  · rw [optimizeCircles_eq]
    refine bestOf_invariant _
      (fun L => L.length ≤ (2 * stepsOf polygon radius spacing + 1).toNat ^ 2) _
      (by simp) ?_
    intro cfg _
    calc (candidatesFor polygon radius _ _ (stepsOf polygon radius spacing) _ _
            cfg.1 cfg.2.1 cfg.2.2).length
        ≤ (idxPairs (stepsOf polygon radius spacing)).length :=
          List.length_filterMap_le _ _
      _ = (2 * stepsOf polygon radius spacing + 1).toNat ^ 2 := idxPairs_length _
  · intro hinf
    rw [optimizeCircles_eq]
    exact bestOf_invariant _ (fun L => L = []) _ rfl
      (fun cfg _ => candidatesFor_eq_nil hinf)

/-- Witness for C3 on the triangle (0,0), (4,0), (0,4) with radius 1,
spacing 1. -/
theorem optimizeCircles_total_witness :
    3 ≤ ([⟨0, 0⟩, ⟨4, 0⟩, ⟨0, 4⟩] : List Point).length ∧ (0 : ℝ) < 1 ∧
    ((optimizeCircles [⟨0, 0⟩, ⟨4, 0⟩, ⟨0, 4⟩] 1 1).length ≤
      (2 * stepsOf [⟨0, 0⟩, ⟨4, 0⟩, ⟨0, 4⟩] 1 1 + 1).toNat ^ 2 ∧
     ((∀ p : Point, isPointInPolygon p [⟨0, 0⟩, ⟨4, 0⟩, ⟨0, 4⟩] = true →
        distanceToPolygonEdge p [⟨0, 0⟩, ⟨4, 0⟩, ⟨0, 4⟩] < 1) →
      optimizeCircles [⟨0, 0⟩, ⟨4, 0⟩, ⟨0, 4⟩] 1 1 = [])) :=
  ⟨by norm_num, by norm_num,
    optimizeCircles_total [⟨0, 0⟩, ⟨4, 0⟩, ⟨0, 4⟩] 1 1
      (by norm_num) (by norm_num) (by norm_num)⟩

lemma insideStep_apply (point : Point) (acc : Bool) (u v : Point) :
    insideStep point acc (u, v) =
      if edgeGuard point (u, v) then !acc else acc := rfl

lemma edgeGuard_pair (point u v : Point) :
    edgeGuard point (u, v) ↔
      (¬((point.y < u.y) ↔ (point.y < v.y))) ∧
      point.x < (v.x - u.x) * (point.y - u.y) / (v.y - u.y) + u.x := Iff.rfl

/-- On a 2-vertex "polygon" the two traversed edges are the same segment in
both directions, so their scanline crossings cancel and the parity test
reports every point outside. -/
lemma isPointInPolygon_pair (p a b : Point) : isPointInPolygon p [a, b] = false := by
  have hrot : ([a, b] : List Point).rotate 1 = [b, a] := by
    rw [List.rotate_eq_drop_append_take (by simp)]
    rfl
  have hedges : prevEdges [a, b] = [(a, b), (b, a)] := by
    simp [prevEdges, hrot]
  rw [isPointInPolygon, hedges]
  simp only [List.foldl_cons, List.foldl_nil]
  rw [insideStep_apply, insideStep_apply]
  by_cases hy : (p.y < a.y) ↔ (p.y < b.y)
  · rw [if_neg (fun hc => hc.1 hy.symm), if_neg (fun hc => hc.1 hy)]
  · have hab : a.y ≠ b.y := fun hEq => hy (by rw [hEq])
    have h1 : b.y - a.y ≠ 0 := sub_ne_zero.mpr (Ne.symm hab)
    have h2 : a.y - b.y ≠ 0 := sub_ne_zero.mpr hab
    have hX : (b.x - a.x) * (p.y - a.y) / (b.y - a.y) + a.x
            = (a.x - b.x) * (p.y - b.y) / (a.y - b.y) + b.x := by
      field_simp
      ring
    have hyy : ¬((p.y < b.y) ↔ (p.y < a.y)) := by tauto
    by_cases hx : p.x < (b.x - a.x) * (p.y - a.y) / (b.y - a.y) + a.x
    · have hx2 : p.x < (a.x - b.x) * (p.y - b.y) / (a.y - b.y) + b.x := by
        rw [← hX]; exact hx
      rw [if_pos (show edgeGuard p (b, a) from ⟨hyy, hx2⟩),
        if_pos (show edgeGuard p (a, b) from ⟨hy, hx⟩)]
      rfl
    · have hC2 : ¬edgeGuard p (b, a) := by
        intro hc
        exact hx (by rw [hX]; exact hc.2)
      rw [if_neg hC2, if_neg (show ¬edgeGuard p (a, b) from fun hc => hx hc.2)]

/-- C4: calling the optimizer with a 2-vertex polygon returns the empty
list (the ray-casting parity test classifies every candidate as outside,
so nothing is ever accepted). -/
theorem optimizeCircles_two_vertices (a b : Point) (radius spacing : ℝ)
    (hr : 0 < radius) (hs : 0 < spacing) :
    optimizeCircles [a, b] radius spacing = [] := by
  rw [optimizeCircles_eq]
  refine bestOf_invariant _ (fun L => L = []) _ rfl ?_
  intro cfg _
  exact candidatesFor_eq_nil
    (fun p hin => absurd hin (by simp [isPointInPolygon_pair]))

/-- Witness for C4 at the segment (0,0)-(3,1) with radius 1, spacing 1. -/
theorem optimizeCircles_two_vertices_witness :
    (0 : ℝ) < 1 ∧ optimizeCircles [⟨0, 0⟩, ⟨3, 1⟩] 1 1 = [] :=
  ⟨by norm_num,
    optimizeCircles_two_vertices ⟨0, 0⟩ ⟨3, 1⟩ 1 1 (by norm_num) (by norm_num)⟩

/-! ## Pairwise separation of the lattice (claim C2) -/

lemma intRange_nodup (steps : ℤ) : (intRange steps).Nodup := by
  refine List.Nodup.map ?_ (List.nodup_range _)
  intro a b hab
  exact_mod_cast add_left_cancel hab

lemma idxPairs_eq_product (steps : ℤ) :
    idxPairs steps = intRange steps ×ˢ intRange steps := rfl

lemma idxPairs_pairwise_ne (steps : ℤ) : (idxPairs steps).Pairwise (· ≠ ·) := by
  rw [idxPairs_eq_product]
  exact List.Nodup.product (intRange_nodup steps) (intRange_nodup steps)

/-- Any two distinct staggered lattice cells are at squared distance at
least d^2 from each other: same-row neighbours differ by a multiple of d,
adjacent rows are offset by a half-odd multiple of d horizontally and by
the row height vertically, and rows two or more apart are already further
than d vertically. -/
lemma hexPos_sq_dist {d rowHeight : ℝ} (hd : 0 ≤ d)
    (hrh : rowHeight = d * Real.sqrt 3 / 2) (offX offY : ℝ)
    {r1 c1 r2 c2 : ℤ} (hne : (r1, c1) ≠ (r2, c2)) :
    d ^ 2 ≤ ((hexPos d rowHeight offX offY r1 c1).1 -
              (hexPos d rowHeight offX offY r2 c2).1) ^ 2 +
            ((hexPos d rowHeight offX offY r1 c1).2 -
              (hexPos d rowHeight offX offY r2 c2).2) ^ 2 := by
  have hrh2 : rowHeight ^ 2 = 3 / 4 * d ^ 2 := by
    rw [hrh, div_pow, mul_pow, Real.sq_sqrt (by norm_num : (0 : ℝ) ≤ 3)]
    ring
  have hΔx : (hexPos d rowHeight offX offY r1 c1).1 -
      (hexPos d rowHeight offX offY r2 c2).1 =
      ((c1 - c2 : ℤ) : ℝ) * d + ((r1.tmod 2 - r2.tmod 2 : ℤ) : ℝ) * (d / 2) := by
    simp only [hexPos]
    push_cast
    ring
  have hΔy : (hexPos d rowHeight offX offY r1 c1).2 -
      (hexPos d rowHeight offX offY r2 c2).2 = ((r1 - r2 : ℤ) : ℝ) * rowHeight := by
    simp only [hexPos]
    push_cast
    ring
  rw [hΔx, hΔy]
  rcases eq_or_ne r1 r2 with rfl | hr
  · -- same row: centers differ by a non-zero multiple of d
    have hc : c1 ≠ c2 := fun hEq => hne (by rw [hEq])
    have hc1 : (1 : ℤ) ≤ (c1 - c2) ^ 2 := by
      rcases lt_or_gt_of_ne (sub_ne_zero.mpr hc) with h | h <;> nlinarith
    have hc1R : (1 : ℝ) ≤ ((c1 - c2 : ℤ) : ℝ) ^ 2 := by exact_mod_cast hc1
    have h0 : r1.tmod 2 - r1.tmod 2 = 0 := by ring
    have h0' : r1 - r1 = 0 := by ring
    rw [h0, h0', Int.cast_zero, zero_mul, add_zero, zero_mul]
    nlinarith [mul_le_mul_of_nonneg_right hc1R (sq_nonneg d)]
  · rcases eq_or_ne ((r1 - r2) ^ 2) 1 with hk1 | hk2
    · -- adjacent rows: the stagger makes the horizontal offset a half-odd
      -- multiple of d, and the vertical offset is one row height
      have hodd : ¬(Even r1 ↔ Even r2) := by
        intro hiff
        have hev : Even (r1 - r2) := (Int.even_sub).mpr hiff
        obtain ⟨j, hj⟩ := hev
        have h4 := hk1
        rw [hj] at h4
        have h5 : 4 * (j * j) = 1 := by linear_combination h4
        have h6 : Even (4 * (j * j)) := ⟨2 * (j * j), by ring⟩
        rw [h5] at h6
        exact (by decide : ¬Even (1 : ℤ)) h6
      have hm : ∃ m : ℤ, (m = 1 ∨ m = -1) ∧ (r1.tmod 2 - r2.tmod 2 : ℤ) = m := by
        rcases tmod_two_cases r1 with ⟨he1, ht1⟩ | ⟨hne1, _, ht1⟩ | ⟨hne1, _, ht1⟩ <;>
          rcases tmod_two_cases r2 with ⟨he2, ht2⟩ | ⟨hne2, _, ht2⟩ | ⟨hne2, _, ht2⟩
        · exact absurd (iff_of_true he1 he2) hodd
        · exact ⟨-1, Or.inr rfl, by rw [ht1, ht2]; decide⟩
        · exact ⟨1, Or.inl rfl, by rw [ht1, ht2]; decide⟩
        · exact ⟨1, Or.inl rfl, by rw [ht1, ht2]; decide⟩
        · exact absurd (iff_of_false hne1 hne2) hodd
        · exact absurd (iff_of_false hne1 hne2) hodd
        · exact ⟨-1, Or.inr rfl, by rw [ht1, ht2]; decide⟩
        · exact absurd (iff_of_false hne1 hne2) hodd
        · exact absurd (iff_of_false hne1 hne2) hodd
      obtain ⟨m, hm1, hmt⟩ := hm
      have hM : (1 : ℤ) ≤ (2 * (c1 - c2) + m) ^ 2 := by
        have hM0 : 2 * (c1 - c2) + m ≠ 0 := by rcases hm1 with rfl | rfl <;> omega
        rcases lt_or_gt_of_ne hM0 with h | h
        · have h' : 2 * (c1 - c2) + m ≤ -1 := by omega
          nlinarith
        · have h' : 1 ≤ 2 * (c1 - c2) + m := by omega
          nlinarith
      have hMR : (1 : ℝ) ≤ ((2 * (c1 - c2) + m : ℤ) : ℝ) ^ 2 := by exact_mod_cast hM
      have hk1R : ((r1 - r2 : ℤ) : ℝ) ^ 2 = 1 := by exact_mod_cast hk1
      have hxform : ((c1 - c2 : ℤ) : ℝ) * d +
          ((r1.tmod 2 - r2.tmod 2 : ℤ) : ℝ) * (d / 2) =
          ((2 * (c1 - c2) + m : ℤ) : ℝ) * (d / 2) := by
        rw [hmt]
        push_cast
        ring
      rw [hxform]
      have hY : (((r1 - r2 : ℤ) : ℝ) * rowHeight) ^ 2 = 3 / 4 * d ^ 2 := by
        rw [mul_pow, hk1R, hrh2]
        ring
      nlinarith [hY, mul_le_mul_of_nonneg_right hMR (sq_nonneg (d / 2))]
    · -- rows at least two apart: vertical separation alone exceeds d
      have hk4 : (4 : ℤ) ≤ (r1 - r2) ^ 2 := by
        have hne0 : r1 - r2 ≠ 0 := sub_ne_zero.mpr hr
        have : r1 - r2 ≤ -2 ∨ r1 - r2 = -1 ∨ r1 - r2 = 1 ∨ 2 ≤ r1 - r2 := by omega
        rcases this with h | h | h | h
        · nlinarith
        · exact absurd (by rw [h]; ring) hk2
        · exact absurd (by rw [h]; ring) hk2
        · nlinarith
      have hk4R : (4 : ℝ) ≤ ((r1 - r2 : ℤ) : ℝ) ^ 2 := by exact_mod_cast hk4
      have hY : 3 * d ^ 2 ≤ (((r1 - r2 : ℤ) : ℝ) * rowHeight) ^ 2 := by
        rw [mul_pow, hrh2]
        nlinarith [mul_nonneg (by linarith : (0 : ℝ) ≤ ((r1 - r2 : ℤ) : ℝ) ^ 2 - 4)
          (by positivity : (0 : ℝ) ≤ 3 / 4 * d ^ 2)]
      nlinarith [hY, sq_nonneg (((c1 - c2 : ℤ) : ℝ) * d +
        ((r1.tmod 2 - r2.tmod 2 : ℤ) : ℝ) * (d / 2)), sq_nonneg d]

/-- Rotating two points by the same angle and translating them by the same
vector preserves their squared distance. -/
lemma rotation_preserves_sq_dist (rad cX cY x1 y1 x2 y2 : ℝ) :
    (x1 * Real.cos rad - y1 * Real.sin rad + cX -
      (x2 * Real.cos rad - y2 * Real.sin rad + cX)) ^ 2 +
    (x1 * Real.sin rad + y1 * Real.cos rad + cY -
      (x2 * Real.sin rad + y2 * Real.cos rad + cY)) ^ 2 =
    (x1 - x2) ^ 2 + (y1 - y2) ^ 2 := by
  have h := Real.sin_sq_add_cos_sq rad
  linear_combination ((x1 - x2) ^ 2 + (y1 - y2) ^ 2) * h

/-- C2: any two distinct circles returned by one `optimizeCircles` run are
at center distance at least 2*radius — in fact at least the lattice pitch
d = radius*2 + spacing. -/
theorem optimizeCircles_nonoverlap (polygon : List Point) (radius spacing : ℝ)
    (hlen : 3 ≤ polygon.length) (hr : 0 < radius) (hs : 0 ≤ spacing) :
    (optimizeCircles polygon radius spacing).Pairwise (fun c1 c2 =>
      2 * radius ≤ Real.sqrt ((c1.x - c2.x) ^ 2 + (c1.y - c2.y) ^ 2) ∧
      radius * 2 + spacing ≤ Real.sqrt ((c1.x - c2.x) ^ 2 + (c1.y - c2.y) ^ 2)) := by
  have hd0 : (0 : ℝ) ≤ radius * 2 + spacing := by linarith
  rw [optimizeCircles_eq]
  refine bestOf_invariant _ (fun L => L.Pairwise _) _ List.Pairwise.nil ?_
  intro cfg _
  rw [candidatesFor, List.pairwise_filterMap]
  refine (idxPairs_pairwise_ne _).imp ?_
  intro rc1 rc2 hne x hx y hy
  obtain ⟨hx1, hy1, -, -, -⟩ := candidateAt_eq_some hx
  obtain ⟨hx2, hy2, -, -, -⟩ := candidateAt_eq_some hy
  have hsq : (radius * 2 + spacing) ^ 2 ≤ (x.x - y.x) ^ 2 + (x.y - y.y) ^ 2 := by
    rw [hx1, hy1, hx2, hy2, rotation_preserves_sq_dist]
    exact hexPos_sq_dist hd0 rfl _ _ hne
  have hsqrt : radius * 2 + spacing ≤
      Real.sqrt ((x.x - y.x) ^ 2 + (x.y - y.y) ^ 2) :=
    Real.le_sqrt_of_sq_le hsq
  exact ⟨by linarith, hsqrt⟩

/-- Witness for C2 on the triangle (0,0), (4,0), (0,4) with radius 1,
spacing 1. -/
theorem optimizeCircles_nonoverlap_witness :
    3 ≤ ([⟨0, 0⟩, ⟨4, 0⟩, ⟨0, 4⟩] : List Point).length ∧ (0 : ℝ) < 1 ∧ (0 : ℝ) ≤ 1 ∧
    (optimizeCircles [⟨0, 0⟩, ⟨4, 0⟩, ⟨0, 4⟩] 1 1).Pairwise (fun c1 c2 =>
      2 * 1 ≤ Real.sqrt ((c1.x - c2.x) ^ 2 + (c1.y - c2.y) ^ 2) ∧
      1 * 2 + 1 ≤ Real.sqrt ((c1.x - c2.x) ^ 2 + (c1.y - c2.y) ^ 2)) :=
  ⟨by norm_num, by norm_num, by norm_num,
    optimizeCircles_nonoverlap [⟨0, 0⟩, ⟨4, 0⟩, ⟨0, 4⟩] 1 1
      (by norm_num) (by norm_num) (by norm_num)⟩

/-! ## Ray-casting parity: points outside the bounding box are classified
outside (towards claim C9) -/

lemma insideStep_eq_guard (p : Point) (b : Bool) (e : Point × Point) :
    insideStep p b e = if edgeGuard p e then !b else b := rfl

lemma ray_parity (p : Point) :
    ∀ (l : List (Point × Point)) (b : Bool),
      l.foldl (insideStep p) b =
        if (l.countP fun e => decide (edgeGuard p e)) % 2 = 1 then !b else b
  | [], b => by simp
  | a :: l, b => by
    rw [List.foldl_cons, ray_parity p l, List.countP_cons, insideStep_eq_guard]
    set n := l.countP fun e => decide (edgeGuard p e) with hn
    by_cases hg : edgeGuard p a
    · rw [if_pos hg]
      have hd : (if (fun e => decide (edgeGuard p e)) a = true then 1 else 0) = 1 := by
        simp [hg]
      rw [hd]
      by_cases hodd : n % 2 = 1
      · rw [if_pos hodd, if_neg (show ¬((n + 1) % 2 = 1) by omega)]
        simp
      · rw [if_neg hodd, if_pos (show (n + 1) % 2 = 1 by omega)]
    · rw [if_neg hg]
      have hd : (if (fun e => decide (edgeGuard p e)) a = true then 1 else 0) = 0 := by
        simp [hg]
      rw [hd, add_zero]

lemma no_guard_outside (p : Point) (polygon : List Point)
    (hng : ∀ e ∈ prevEdges polygon, ¬edgeGuard p e) :
    isPointInPolygon p polygon = false := by
  rw [isPointInPolygon, ray_parity]
  have h0 : ((prevEdges polygon).countP fun e => decide (edgeGuard p e)) = 0 := by
    rw [List.countP_eq_zero]
    intro e he
    simp [hng e he]
  rw [h0]
  norm_num

lemma chain_parity :
    ∀ (xs : List Bool) (x y : Bool),
      (List.countP (fun e : Bool × Bool => e.1 != e.2) ((x :: xs).zip (xs ++ [y]))) % 2 =
        if x = y then 0 else 1
  | [], x, y => by cases x <;> cases y <;> simp [List.countP_cons]
  | z :: zs, x, y => by
    have ih := chain_parity zs z y
    simp only [List.cons_append, List.zip_cons_cons, List.countP_cons] at *
    cases x <;> cases z <;> cases y <;> simp_all <;> omega

lemma cycle_parity (bs : List Bool) :
    Even ((bs.zip (bs.rotate (bs.length - 1))).countP
      (fun e : Bool × Bool => e.1 != e.2)) := by
  match bs with
  | [] => simp
  | x :: xs =>
    set bs := x :: xs with hbs
    set m := bs.length with hm
    have hm1 : 1 ≤ m := by simp [hm, hbs]
    set rot := bs.rotate (m - 1) with hrot
    have hback : rot.rotate 1 = bs := by
      rw [hrot, List.rotate_rotate]
      have : m - 1 + 1 = m := by omega
      rw [this, hm, List.rotate_length]
    have hswap : (rot.zip bs).countP (fun e : Bool × Bool => e.1 != e.2) =
        (bs.zip rot).countP (fun e : Bool × Bool => e.1 != e.2) := by
      rw [← List.zip_swap bs rot, List.countP_map]
      refine List.countP_congr ?_
      intro e _
      obtain ⟨u, v⟩ := e
      cases u <;> cases v <;> simp [Prod.swap]
    rw [← hswap]
    have hrotne : rot ≠ [] := by
      intro h0
      have : rot.length = 0 := by rw [h0]; rfl
      rw [hrot, List.length_rotate] at this
      omega
    obtain ⟨w, ws, hws⟩ := List.exists_cons_of_ne_nil hrotne
    have hrot1 : rot.rotate 1 = ws ++ [w] := by
      rw [hws, List.rotate_cons_succ, List.rotate_zero]
    rw [hws]
    have hzip : bs = ws ++ [w] := by rw [← hback, hrot1]
    rw [hzip]
    rw [Nat.even_iff]
    have := chain_parity ws w w
    simpa using this

/-- The straddle count over the cyclic edge list is always even: the
scanline-side indicator returns to its starting value after one full loop
around the polygon. -/
lemma straddle_count_even (p : Point) (polygon : List Point) :
    Even ((prevEdges polygon).countP fun e => decide (straddle p e)) := by
  have hcg : ((prevEdges polygon).countP fun e => decide (straddle p e)) =
      (prevEdges polygon).countP
        (fun e => (fun v => decide (p.y < v.y)) e.1 != (fun v => decide (p.y < v.y)) e.2) := by
    refine List.countP_congr ?_
    intro e _
    by_cases h1 : p.y < e.1.y <;> by_cases h2 : p.y < e.2.y <;>
      simp [straddle, h1, h2]
  rw [hcg, prevEdges]
  have hmaps : polygon.zip (polygon.rotate (polygon.length - 1)) =
      polygon.zip (polygon.rotate (polygon.length - 1)) := rfl
  -- re-express the count through the mapped Bool list
  have key : (polygon.zip (polygon.rotate (polygon.length - 1))).countP
        (fun e => (fun v => decide (p.y < v.y)) e.1 != (fun v => decide (p.y < v.y)) e.2) =
      ((polygon.map fun v => decide (p.y < v.y)).zip
        ((polygon.map fun v => decide (p.y < v.y)).rotate (polygon.length - 1))).countP
        (fun e : Bool × Bool => e.1 != e.2) := by
    rw [← List.map_rotate, List.zip_map, List.countP_map]
    rfl
  rw [key]
  have hlen : (polygon.map fun v => decide (p.y < v.y)).length = polygon.length :=
    List.length_map _ _
  rw [← hlen]
  exact cycle_parity _

/-- For a straddling edge, the x-intersection of the edge with the
scanline lies between the x-coordinates of the edge's endpoints. -/
lemma interX_between (p : Point) (e : Point × Point) (hstr : straddle p e) :
    min e.1.x e.2.x ≤ (e.2.x - e.1.x) * (p.y - e.1.y) / (e.2.y - e.1.y) + e.1.x ∧
    (e.2.x - e.1.x) * (p.y - e.1.y) / (e.2.y - e.1.y) + e.1.x ≤ max e.1.x e.2.x := by
  have hD : e.2.y - e.1.y ≠ 0 := by
    intro h0
    exact hstr (by rw [show e.1.y = e.2.y by linarith])
  set t := (p.y - e.1.y) / (e.2.y - e.1.y) with ht
  have hN : p.y - e.1.y = t * (e.2.y - e.1.y) := by
    field_simp [ht]
  have ht01 : 0 ≤ t ∧ t ≤ 1 := by
    rcases Classical.em (p.y < e.1.y) with hA | hA
    · have hB : ¬(p.y < e.2.y) := fun hB => hstr (iff_of_true hA hB)
      have hD' : e.2.y - e.1.y < 0 := by
        have := not_lt.mp hB
        linarith
      constructor
      · by_contra hcon
        push_neg at hcon
        nlinarith
      · by_contra hcon
        push_neg at hcon
        nlinarith [not_lt.mp hB]
    · have hB : p.y < e.2.y := by
        by_contra hB
        exact hstr (iff_of_false hA hB)
      have hD' : 0 < e.2.y - e.1.y := by
        have := not_lt.mp hA
        linarith
      constructor
      · by_contra hcon
        push_neg at hcon
        nlinarith [not_lt.mp hA]
      · by_contra hcon
        push_neg at hcon
        nlinarith
  obtain ⟨ht0, ht1⟩ := ht01
  have hIX : (e.2.x - e.1.x) * (p.y - e.1.y) / (e.2.y - e.1.y) + e.1.x =
      (e.2.x - e.1.x) * t + e.1.x := by
    rw [ht, mul_div_assoc]
  rw [hIX]
  rcases le_total e.1.x e.2.x with h | h
  · rw [min_eq_left h, max_eq_right h]
    constructor <;> nlinarith
  · rw [min_eq_right h, max_eq_left h]
    constructor <;> nlinarith

lemma foldl_min_le_init (xs : List ℝ) (a : ℝ) : xs.foldl min a ≤ a := by
  induction xs generalizing a with
  | nil => exact le_refl a
  | cons c xs ih =>
    calc (c :: xs).foldl min a = xs.foldl min (min a c) := rfl
      _ ≤ min a c := ih _
      _ ≤ a := min_le_left _ _

lemma foldl_min_le_mem (xs : List ℝ) (a x : ℝ) (hx : x ∈ xs) : xs.foldl min a ≤ x := by
  induction xs generalizing a with
  | nil => cases hx
  | cons c xs ih =>
    rcases List.mem_cons.mp hx with rfl | hx'
    · calc (x :: xs).foldl min a = xs.foldl min (min a x) := rfl
        _ ≤ min a x := foldl_min_le_init _ _
        _ ≤ x := min_le_right _ _
    · exact ih _ hx'

lemma le_foldl_max_init (xs : List ℝ) (a : ℝ) : a ≤ xs.foldl max a := by
  induction xs generalizing a with
  | nil => exact le_refl a
  | cons c xs ih =>
    calc a ≤ max a c := le_max_left _ _
      _ ≤ xs.foldl max (max a c) := ih _
      _ = (c :: xs).foldl max a := rfl

lemma le_foldl_max_mem (xs : List ℝ) (a x : ℝ) (hx : x ∈ xs) : x ≤ xs.foldl max a := by
  induction xs generalizing a with
  | nil => cases hx
  | cons c xs ih =>
    rcases List.mem_cons.mp hx with rfl | hx'
    · calc x ≤ max a x := le_max_right _ _
        _ ≤ xs.foldl max (max a x) := le_foldl_max_init _ _
        _ = (x :: xs).foldl max a := rfl
    · exact ih _ hx'

/-- Every vertex lies inside the bounding box. -/
lemma getBoundingBox_bounds (polygon : List Point) (v : Point) (hv : v ∈ polygon) :
    (getBoundingBox polygon).minX ≤ v.x ∧ v.x ≤ (getBoundingBox polygon).maxX ∧
    (getBoundingBox polygon).minY ≤ v.y ∧ v.y ≤ (getBoundingBox polygon).maxY := by
  match polygon with
  | [] => cases hv
  | p :: ps =>
    have hfx : ∀ (f : Point → ℝ) (b : ℝ),
        ps.foldl (fun m q => min m (f q)) b = (ps.map f).foldl min b := by
      intro f b
      rw [List.foldl_map]
    have hgx : ∀ (f : Point → ℝ) (b : ℝ),
        ps.foldl (fun m q => max m (f q)) b = (ps.map f).foldl max b := by
      intro f b
      rw [List.foldl_map]
    simp only [getBoundingBox, hfx, hgx]
    rcases List.mem_cons.mp hv with rfl | hv'
    · exact ⟨foldl_min_le_init _ _, le_foldl_max_init _ _,
        foldl_min_le_init _ _, le_foldl_max_init _ _⟩
    · exact ⟨foldl_min_le_mem _ _ _ (List.mem_map_of_mem _ hv'),
        le_foldl_max_mem _ _ _ (List.mem_map_of_mem _ hv'),
        foldl_min_le_mem _ _ _ (List.mem_map_of_mem _ hv'),
        le_foldl_max_mem _ _ _ (List.mem_map_of_mem _ hv')⟩

/-- Edge endpoints are polygon vertices. -/
lemma prevEdges_mem {polygon : List Point} {e : Point × Point}
    (he : e ∈ prevEdges polygon) : e.1 ∈ polygon ∧ e.2 ∈ polygon := by
  obtain ⟨u, v⟩ := e
  have h := List.of_mem_zip he
  exact ⟨h.1, List.mem_rotate.mp h.2⟩

/-- A point strictly left of every vertex is classified outside: every
straddling edge's scanline intersection lies to its right, so the guard
coincides with the straddle predicate, whose cyclic count is even. -/
lemma outside_left (p : Point) (polygon : List Point)
    (h : ∀ v ∈ polygon, p.x < v.x) : isPointInPolygon p polygon = false := by
  rw [isPointInPolygon, ray_parity]
  have hcg : ((prevEdges polygon).countP fun e => decide (edgeGuard p e)) =
      (prevEdges polygon).countP fun e => decide (straddle p e) := by
    refine List.countP_congr ?_
    intro e he
    obtain ⟨h1, h2⟩ := prevEdges_mem he
    simp only [decide_eq_true_eq]
    constructor
    · exact fun hg => hg.1
    · intro hstr
      refine ⟨hstr, ?_⟩
      have hbetween := (interX_between p e hstr).1
      have : p.x < min e.1.x e.2.x := lt_min (h _ h1) (h _ h2)
      linarith
  rw [hcg]
  have heven := straddle_count_even p polygon
  rw [Nat.even_iff] at heven
  rw [if_neg (by omega)]

/-- A point strictly right of every vertex is classified outside: no
scanline intersection lies to its right, so no edge ever toggles. -/
lemma outside_right (p : Point) (polygon : List Point)
    (h : ∀ v ∈ polygon, v.x < p.x) : isPointInPolygon p polygon = false := by
  refine no_guard_outside p polygon ?_
  intro e he hg
  obtain ⟨h1, h2⟩ := prevEdges_mem he
  have hbetween := (interX_between p e hg.1).2
  have : max e.1.x e.2.x < p.x := max_lt (h _ h1) (h _ h2)
  linarith [hg.2]

/-- A point with every vertex on or below its scanline is classified
outside: no edge straddles. -/
lemma outside_above (p : Point) (polygon : List Point)
    (h : ∀ v ∈ polygon, ¬(p.y < v.y)) : isPointInPolygon p polygon = false := by
  refine no_guard_outside p polygon ?_
  intro e he hg
  obtain ⟨h1, h2⟩ := prevEdges_mem he
  exact hg.1 (iff_of_false (h _ h1) (h _ h2))

/-- A point with every vertex strictly above its scanline is classified
outside: no edge straddles. -/
lemma outside_below (p : Point) (polygon : List Point)
    (h : ∀ v ∈ polygon, p.y < v.y) : isPointInPolygon p polygon = false := by
  refine no_guard_outside p polygon ?_
  intro e he hg
  obtain ⟨h1, h2⟩ := prevEdges_mem he
  exact hg.1 (iff_of_true (h _ h1) (h _ h2))

/-! ## The bounding-box pre-filter has no semantic effect (claim C9) -/

noncomputable section

/-- Variant of `acceptPoint` with the coarse bounding-box filter removed:
only the strict containment and clearance checks of lines 117-128 remain.
This is the comparison definition for the refinement claim that the filter
is a pure performance optimization. -/
def acceptPointNoFilter (polygon : List Point) (radius : ℝ) (angle : ℕ) (rc : ℤ × ℤ)
    (p : Point) : Option Circle :=
  if isPointInPolygon p polygon then
    if distanceToPolygonEdge p polygon ≥ radius then
      some ⟨p.x, p.y, radius, circleId angle rc.1 rc.2⟩
    else none
  else none

/-- `candidateAt` with the bounding-box filter removed. -/
def candidateAtNoFilter (polygon : List Point) (radius d rowHeight : ℝ)
    (centerX centerY : ℝ) (angle : ℕ) (offX offY : ℝ) (rc : ℤ × ℤ) : Option Circle :=
  let rad := (angle : ℝ) * (Real.pi / 180)
  let c := Real.cos rad
  let s := Real.sin rad
  let hexX := (hexPos d rowHeight offX offY rc.1 rc.2).1
  let hexY := (hexPos d rowHeight offX offY rc.1 rc.2).2
  acceptPointNoFilter polygon radius angle rc
    ⟨hexX * c - hexY * s + centerX, hexX * s + hexY * c + centerY⟩

/-- `candidatesFor` with the bounding-box filter removed. -/
def candidatesForNoFilter (polygon : List Point) (radius d rowHeight : ℝ) (steps : ℤ)
    (centerX centerY : ℝ) (angle : ℕ) (offX offY : ℝ) : List Circle :=
  (idxPairs steps).filterMap
    (candidateAtNoFilter polygon radius d rowHeight centerX centerY angle offX offY)

/-- `optimizeCircles` with the bounding-box filter removed. -/
def optimizeCirclesNoFilter (polygon : List Point) (radius : ℝ) (spacing : ℝ) :
    List Circle :=
  let bounds := getBoundingBox polygon
  let d := radius * 2 + spacing
  let rowHeight := d * Real.sqrt 3 / 2
  let centerX := (bounds.minX + bounds.maxX) / 2
  let centerY := (bounds.minY + bounds.maxY) / 2
  let steps := stepsOf polygon radius spacing
  let configs : List (ℕ × ℝ × ℝ) :=
    [0, 15, 30, 45, 60].bind (fun angle =>
      [0, d / 2].bind (fun offX =>
        [0, rowHeight / 2].map (fun offY => (angle, offX, offY))))
  (bestOf
    (fun cfg => candidatesForNoFilter polygon radius d rowHeight steps
      centerX centerY cfg.1 cfg.2.1 cfg.2.2)
    configs).2

end

/-- A point rejected by the coarse bounding-box filter is classified
outside the polygon by the strict test as well, so the two accept/reject
tests agree on every point. -/
lemma acceptPoint_filter_eq (polygon : List Point) {radius : ℝ} (hr : 0 < radius)
    (angle : ℕ) (rc : ℤ × ℤ) (p : Point) :
    acceptPointNoFilter polygon radius angle rc p = acceptPoint polygon radius angle rc p := by
  simp only [acceptPoint, acceptPointNoFilter]
  by_cases hrej : p.x < (getBoundingBox polygon).minX - radius ∨
      p.x > (getBoundingBox polygon).maxX + radius ∨
      p.y < (getBoundingBox polygon).minY - radius ∨
      p.y > (getBoundingBox polygon).maxY + radius
  · rw [if_pos hrej]
    have hout : isPointInPolygon p polygon = false := by
      rcases hrej with h | h | h | h
      · refine outside_left p polygon ?_
        intro v hv
        have := (getBoundingBox_bounds polygon v hv).1
        linarith
      · refine outside_right p polygon ?_
        intro v hv
        have := (getBoundingBox_bounds polygon v hv).2.1
        linarith
      · refine outside_below p polygon ?_
        intro v hv
        have := (getBoundingBox_bounds polygon v hv).2.2.1
        linarith
      · refine outside_above p polygon ?_
        intro v hv
        have := (getBoundingBox_bounds polygon v hv).2.2.2
        intro hcon
        linarith
    rw [if_neg (by simp [hout])]
  · rw [if_neg hrej]

lemma candidatesFor_filter_eq (polygon : List Point) {radius : ℝ} (hr : 0 < radius)
    (d rowHeight : ℝ) (steps : ℤ) (cX cY : ℝ) (angle : ℕ) (offX offY : ℝ) :
    candidatesForNoFilter polygon radius d rowHeight steps cX cY angle offX offY =
    candidatesFor polygon radius d rowHeight steps cX cY angle offX offY := by
  simp only [candidatesFor, candidatesForNoFilter]
  congr 1
  funext rc
  simp only [candidateAt, candidateAtNoFilter]
  exact acceptPoint_filter_eq polygon hr angle rc _

/-- `optimizeCirclesNoFilter` with its local definitions unfolded. -/
lemma optimizeCirclesNoFilter_eq (polygon : List Point) (radius spacing : ℝ) :
    optimizeCirclesNoFilter polygon radius spacing =
      (bestOf (fun cfg : ℕ × ℝ × ℝ =>
        candidatesForNoFilter polygon radius (radius * 2 + spacing)
          ((radius * 2 + spacing) * Real.sqrt 3 / 2)
          (stepsOf polygon radius spacing)
          (((getBoundingBox polygon).minX + (getBoundingBox polygon).maxX) / 2)
          (((getBoundingBox polygon).minY + (getBoundingBox polygon).maxY) / 2)
          cfg.1 cfg.2.1 cfg.2.2)
        ([0, 15, 30, 45, 60].bind (fun angle =>
          [0, (radius * 2 + spacing) / 2].bind (fun offX =>
            [0, (radius * 2 + spacing) * Real.sqrt 3 / 2 / 2].map
              (fun offY => (angle, offX, offY)))))).2 := rfl

/-- C9: the coarse bounding-box pre-filter has no semantic effect — the
variant of the optimizer with the filter removed accepts exactly the same
candidates in every configuration and returns an identical circle list. -/
theorem optimizeCircles_bbox_filter_redundant (polygon : List Point) (radius spacing : ℝ)
    (hlen : 3 ≤ polygon.length) (hr : 0 < radius) (hs : 0 < spacing) :
    (∀ (d rowHeight : ℝ) (steps : ℤ) (cX cY : ℝ) (angle : ℕ) (offX offY : ℝ),
      candidatesForNoFilter polygon radius d rowHeight steps cX cY angle offX offY =
      candidatesFor polygon radius d rowHeight steps cX cY angle offX offY) ∧
    optimizeCirclesNoFilter polygon radius spacing =
      optimizeCircles polygon radius spacing := by
  refine ⟨fun d rowHeight steps cX cY angle offX offY =>
    candidatesFor_filter_eq polygon hr d rowHeight steps cX cY angle offX offY, ?_⟩
  have hf : (fun cfg : ℕ × ℝ × ℝ =>
      candidatesForNoFilter polygon radius (radius * 2 + spacing)
        ((radius * 2 + spacing) * Real.sqrt 3 / 2)
        (stepsOf polygon radius spacing)
        (((getBoundingBox polygon).minX + (getBoundingBox polygon).maxX) / 2)
        (((getBoundingBox polygon).minY + (getBoundingBox polygon).maxY) / 2)
        cfg.1 cfg.2.1 cfg.2.2) =
      (fun cfg : ℕ × ℝ × ℝ =>
      candidatesFor polygon radius (radius * 2 + spacing)
        ((radius * 2 + spacing) * Real.sqrt 3 / 2)
        (stepsOf polygon radius spacing)
        (((getBoundingBox polygon).minX + (getBoundingBox polygon).maxX) / 2)
        (((getBoundingBox polygon).minY + (getBoundingBox polygon).maxY) / 2)
        cfg.1 cfg.2.1 cfg.2.2) := by
    funext cfg
    exact candidatesFor_filter_eq polygon hr _ _ _ _ _ _ _ _
  rw [optimizeCircles_eq, optimizeCirclesNoFilter_eq, hf]

/-- Witness for C9 on the triangle (0,0), (4,0), (0,4) with radius 1,
spacing 1. -/
theorem optimizeCircles_bbox_filter_redundant_witness :
    3 ≤ ([⟨0, 0⟩, ⟨4, 0⟩, ⟨0, 4⟩] : List Point).length ∧ (0 : ℝ) < 1 ∧
    optimizeCirclesNoFilter [⟨0, 0⟩, ⟨4, 0⟩, ⟨0, 4⟩] 1 1 =
      optimizeCircles [⟨0, 0⟩, ⟨4, 0⟩, ⟨0, 4⟩] 1 1 :=
  ⟨by norm_num, by norm_num,
    (optimizeCircles_bbox_filter_redundant [⟨0, 0⟩, ⟨4, 0⟩, ⟨0, 4⟩] 1 1
      (by norm_num) (by norm_num) (by norm_num)).2⟩

/-! ## Missing input validation (claim C5): with a negative radius the
search still runs and accepts candidates -/

lemma distanceToSegment_nonneg (p v w : Point) : 0 ≤ distanceToSegment p v w := by
  rw [distanceToSegment]
  split_ifs <;> exact Real.sqrt_nonneg _

lemma foldl_min_nonneg (xs : List ℝ) (a : ℝ) (ha : 0 ≤ a)
    (hx : ∀ x ∈ xs, 0 ≤ x) : 0 ≤ xs.foldl min a := by
  induction xs generalizing a with
  | nil => exact ha
  | cons c xs ih =>
    refine ih (min a c) (le_min ha (hx c (List.mem_cons_self c xs))) ?_
    exact fun x hxmem => hx x (List.mem_cons_of_mem c hxmem)

lemma distanceToPolygonEdge_nonneg (p : Point) (polygon : List Point) :
    0 ≤ distanceToPolygonEdge p polygon := by
  rw [distanceToPolygonEdge]
  cases hm : (polygon.zip (polygon.rotate 1)).map
      (fun e => distanceToSegment p e.1 e.2) with
  | nil => exact le_refl 0
  | cons dmin rest =>
    have hall : ∀ x ∈ dmin :: rest, 0 ≤ x := by
      rw [← hm]
      intro x hxm
      obtain ⟨e, -, rfl⟩ := List.mem_map.mp hxm
      exact distanceToSegment_nonneg _ _ _
    exact foldl_min_nonneg rest dmin (hall dmin (List.mem_cons_self _ _))
      (fun x hxm => hall x (List.mem_cons_of_mem _ hxm))

/-- The 10 by 10 axis-aligned square, used as the concrete fixture for the
missing-validation claim. -/
def sqPoly : List Point := [⟨0, 0⟩, ⟨10, 0⟩, ⟨10, 10⟩, ⟨0, 10⟩]

lemma sqPoly_bounds : getBoundingBox sqPoly = ⟨0, 0, 10, 10⟩ := by
  show getBoundingBox [⟨0, 0⟩, ⟨10, 0⟩, ⟨10, 10⟩, ⟨0, 10⟩] = ⟨0, 0, 10, 10⟩
  simp only [getBoundingBox, List.foldl_cons, List.foldl_nil]
  congr 1 <;> norm_num [min_def, max_def]

lemma sqPoly_prevEdges : prevEdges sqPoly =
    [(⟨0, 0⟩, ⟨0, 10⟩), (⟨10, 0⟩, ⟨0, 0⟩), (⟨10, 10⟩, ⟨10, 0⟩), (⟨0, 10⟩, ⟨10, 10⟩)] := rfl

lemma sqPoly_center_inside : isPointInPolygon ⟨5, 5⟩ sqPoly = true := by
  rw [isPointInPolygon, sqPoly_prevEdges]
  simp only [List.foldl_cons, List.foldl_nil, insideStep_eq_guard]
  have hg1 : ¬edgeGuard ⟨5, 5⟩ (⟨0, 0⟩, ⟨0, 10⟩) := by
    intro hg
    have := hg.2
    norm_num at this
  have hg2 : ¬edgeGuard ⟨5, 5⟩ (⟨10, 0⟩, ⟨0, 0⟩) := by
    intro hg
    have := hg.1
    norm_num at this
  have hg3 : edgeGuard ⟨5, 5⟩ (⟨10, 10⟩, ⟨10, 0⟩) := by
    constructor
    · norm_num
    · norm_num
  have hg4 : ¬edgeGuard ⟨5, 5⟩ (⟨0, 10⟩, ⟨10, 10⟩) := by
    intro hg
    have := hg.1
    norm_num at this
  rw [if_neg hg1, if_neg hg2, if_pos hg3, if_neg hg4]
  rfl

/-- With radius -5 and spacing 2 the pitch is -8 and the computed loop
bound is ceil(sqrt(200) / -8) + 2 = -1 + 2 = 1: the lattice loops run. -/
lemma sqPoly_steps : stepsOf sqPoly (-5) 2 = 1 := by
  have h8 : (8 : ℝ) ≤ Real.sqrt 200 :=
    (Real.le_sqrt (by norm_num) (by norm_num)).mpr (by norm_num)
  have h16 : Real.sqrt 200 < 16 :=
    (Real.sqrt_lt' (by norm_num)).mpr (by norm_num)
  have hsteps : stepsOf sqPoly (-5) 2 =
      ⌈Real.sqrt ((10 - 0) * (10 - 0) + (10 - 0) * (10 - 0)) / ((-5) * 2 + 2)⌉ + 2 := by
    simp only [stepsOf, sqPoly_bounds]
  rw [hsteps]
  have h200 : ((10 : ℝ) - 0) * (10 - 0) + (10 - 0) * (10 - 0) = 200 := by norm_num
  rw [h200]
  have hd8 : Real.sqrt 200 / ((-5 : ℝ) * 2 + 2) = -(Real.sqrt 200 / 8) := by
    rw [show ((-5 : ℝ) * 2 + 2) = -8 by norm_num, div_neg]
  have hlow : Real.sqrt 200 / 8 < 2 := by
    rw [div_lt_iff (by norm_num : (0 : ℝ) < 8)]
    linarith
  have hhigh : (1 : ℝ) ≤ Real.sqrt 200 / 8 := by
    rw [le_div_iff (by norm_num : (0 : ℝ) < 8)]
    linarith
  have hceil : ⌈Real.sqrt 200 / ((-5 : ℝ) * 2 + 2)⌉ = -1 := by
    rw [Int.ceil_eq_iff, hd8]
    constructor
    · push_cast
      linarith
    · push_cast
      linarith
  rw [hceil]
  norm_num

/-- With radius -5 the center of the square passes every check of the
accept/reject test: no validation stops the negative radius. -/
lemma sqPoly_acceptPoint :
    acceptPoint sqPoly (-5) 0 (0, 0) ⟨5, 5⟩ = some ⟨5, 5, -5, circleId 0 0 0⟩ := by
  rw [acceptPoint]
  simp only [sqPoly_bounds]
  rw [if_neg (by norm_num), if_pos sqPoly_center_inside,
    if_pos (by linarith [distanceToPolygonEdge_nonneg ⟨5, 5⟩ sqPoly] :
      distanceToPolygonEdge ⟨5, 5⟩ sqPoly ≥ -5)]

/-- Row 0, column 0 of the lattice for radius -5, spacing 2 lands on the
square's center and is accepted as a circle of radius -5. -/
lemma sqPoly_candidate :
    candidateAt sqPoly (-5) ((-5) * 2 + 2) (((-5) * 2 + 2) * Real.sqrt 3 / 2)
      (((getBoundingBox sqPoly).minX + (getBoundingBox sqPoly).maxX) / 2)
      (((getBoundingBox sqPoly).minY + (getBoundingBox sqPoly).maxY) / 2)
      0 0 0 (0, 0) = some ⟨5, 5, -5, circleId 0 0 0⟩ := by
  rw [candidateAt]
  have hpt : (⟨(hexPos ((-5) * 2 + 2) (((-5) * 2 + 2) * Real.sqrt 3 / 2) 0 0
        (0, 0).1 (0, 0).2).1 * Real.cos (((0 : ℕ) : ℝ) * (Real.pi / 180)) -
      (hexPos ((-5) * 2 + 2) (((-5) * 2 + 2) * Real.sqrt 3 / 2) 0 0
        (0, 0).1 (0, 0).2).2 * Real.sin (((0 : ℕ) : ℝ) * (Real.pi / 180)) +
      ((getBoundingBox sqPoly).minX + (getBoundingBox sqPoly).maxX) / 2,
      (hexPos ((-5) * 2 + 2) (((-5) * 2 + 2) * Real.sqrt 3 / 2) 0 0
        (0, 0).1 (0, 0).2).1 * Real.sin (((0 : ℕ) : ℝ) * (Real.pi / 180)) +
      (hexPos ((-5) * 2 + 2) (((-5) * 2 + 2) * Real.sqrt 3 / 2) 0 0
        (0, 0).1 (0, 0).2).2 * Real.cos (((0 : ℕ) : ℝ) * (Real.pi / 180)) +
      ((getBoundingBox sqPoly).minY + (getBoundingBox sqPoly).maxY) / 2⟩ : Point) =
      ⟨5, 5⟩ := by
    have hrad : ((0 : ℕ) : ℝ) * (Real.pi / 180) = 0 := by norm_num
    have hhex : hexPos ((-5) * 2 + 2) (((-5) * 2 + 2) * Real.sqrt 3 / 2) 0 0
        (0, 0).1 (0, 0).2 = (0, 0) := by
      simp [hexPos]
    rw [hrad, hhex, sqPoly_bounds]
    simp [Real.cos_zero, Real.sin_zero]
    norm_num
  rw [hpt]
  exact sqPoly_acceptPoint

lemma foldl_bestStep_fst_mono {α : Type} (f : α → List Circle) :
    ∀ (l : List α) (st : ℕ × List Circle), st.1 ≤ (l.foldl (bestStep f) st).1
  | [], _ => le_refl _
  | a :: l, st => by
    rw [List.foldl_cons]
    refine le_trans ?_ (foldl_bestStep_fst_mono f l _)
    unfold bestStep
    split
    · next h => exact le_of_lt h
    · exact le_refl _

lemma foldl_bestStep_fst_ge {α : Type} (f : α → List Circle) :
    ∀ (l : List α) (st : ℕ × List Circle) (a : α), a ∈ l →
      (f a).length ≤ (l.foldl (bestStep f) st).1
  | [], _, a, ha => absurd ha (List.not_mem_nil a)
  | b :: l, st, a, ha => by
    rw [List.foldl_cons]
    rcases List.mem_cons.mp ha with rfl | ha'
    · refine le_trans ?_ (foldl_bestStep_fst_mono f l _)
      unfold bestStep
      split
      · exact le_refl _
      · next h => exact Nat.le_of_not_lt h
    · exact foldl_bestStep_fst_ge f l _ a ha'

lemma bestOf_snd_length {α : Type} (f : α → List Circle) (l : List α) :
    (bestOf f l).2.length = (bestOf f l).1 := by
  rw [bestOf]
  suffices H : ∀ (l : List α) (st : ℕ × List Circle), st.2.length = st.1 →
      ((l.foldl (bestStep f) st).2.length = (l.foldl (bestStep f) st).1) from
    H l (0, []) rfl
  intro l
  induction l with
  | nil => exact fun st h => h
  | cons a l ih =>
    intro st h
    rw [List.foldl_cons]
    refine ih _ ?_
    unfold bestStep
    split
    · rfl
    · exact h

lemma bestOf_ne_nil {α : Type} (f : α → List Circle) (l : List α) (a : α)
    (ha : a ∈ l) (hne : f a ≠ []) : (bestOf f l).2 ≠ [] := by
  intro hnil
  have hge : (f a).length ≤ (bestOf f l).1 := foldl_bestStep_fst_ge f l (0, []) a ha
  have hlen := bestOf_snd_length f l
  rw [hnil] at hlen
  simp only [List.length_nil] at hlen
  have hpos := List.length_pos.mpr hne
  omega

/-- C5 fails on the code: there is no defensive validation.  Called with
the non-positive radius -5 (spacing 2, pitch -8), the optimizer proceeds
into the lattice search — the angle-0 configuration accepts the square's
center as a circle of radius -5 — and `optimizeCircles` returns a
non-empty list of such circles instead of rejecting the input. -/
theorem optimizeCircles_no_validation :
    (⟨5, 5, -5, circleId 0 0 0⟩ : Circle) ∈
      candidatesFor sqPoly (-5) ((-5) * 2 + 2) (((-5) * 2 + 2) * Real.sqrt 3 / 2)
        (stepsOf sqPoly (-5) 2)
        (((getBoundingBox sqPoly).minX + (getBoundingBox sqPoly).maxX) / 2)
        (((getBoundingBox sqPoly).minY + (getBoundingBox sqPoly).maxY) / 2) 0 0 0 ∧
    optimizeCircles sqPoly (-5) 2 ≠ [] := by
  have hmem : (⟨5, 5, -5, circleId 0 0 0⟩ : Circle) ∈
      candidatesFor sqPoly (-5) ((-5) * 2 + 2) (((-5) * 2 + 2) * Real.sqrt 3 / 2)
        (stepsOf sqPoly (-5) 2)
        (((getBoundingBox sqPoly).minX + (getBoundingBox sqPoly).maxX) / 2)
        (((getBoundingBox sqPoly).minY + (getBoundingBox sqPoly).maxY) / 2) 0 0 0 := by
    rw [candidatesFor]
    refine List.mem_filterMap.mpr ⟨(0, 0), ?_, sqPoly_candidate⟩
    rw [sqPoly_steps]
    decide
  refine ⟨hmem, ?_⟩
  rw [optimizeCircles_eq]
  have hcfg : ((0 : ℕ), (0 : ℝ), (0 : ℝ)) ∈
      ([0, 15, 30, 45, 60].bind (fun angle =>
        [0, ((-5 : ℝ) * 2 + 2) / 2].bind (fun offX =>
          [0, ((-5 : ℝ) * 2 + 2) * Real.sqrt 3 / 2 / 2].map
            (fun offY => (angle, offX, offY))))) :=
    List.mem_bind.mpr ⟨0, List.mem_cons_self _ _,
      List.mem_bind.mpr ⟨0, List.mem_cons_self _ _,
        List.mem_map.mpr ⟨0, List.mem_cons_self _ _, rfl⟩⟩⟩
  exact bestOf_ne_nil _ _ ((0 : ℕ), (0 : ℝ), (0 : ℝ)) hcfg (List.ne_nil_of_mem hmem)

end Pelmeni
